import Mathlib

/-!
Verification of the StitchCraft layer editor (`src/App.tsx`, `src/types.ts`).

The development embeds the numeric and state-management core of `App.tsx`:

* `calculateRotatedDimensions` — the rotated-bounding-box helper, embedded
  twice: over `ℚ` with the floating-point trigonometric primitives abstracted
  as parameters (`sinA cosA : ℚ → ℚ`), and over `ℝ` with genuine `Real.sin` /
  `Real.cos` (`calculateRotatedDimensionsR`).  A third embedding over `JSNum`
  models the IEEE special values (NaN / ±Infinity) that JavaScript arithmetic
  propagates.
* the layer store (`AppState`) with its mutation entry points
  (`updateSelectedLayers`, `deleteSelectedLayers`, `reorderLayers`, toggles,
  `undo`, `redo`, history recording) and the export formatter
  (`prepareExport`).

JavaScript numeric idioms are modelled exactly: `%` is the sign-preserving
remainder (`jsRem`), `Math.round x` is `⌊x + 1/2⌋` (`jsRound`), `Math.PI` is
the exact dyadic value of the IEEE-754 double (`jsPI`).
-/

/-- JavaScript `Math.trunc` / the implicit truncation inside `%`:
rounding toward zero. -/
def jsTrunc (q : ℚ) : ℤ :=
  if q < 0 then ⌈q⌉ else ⌊q⌋

/-- JavaScript remainder `a % b` for finite operands, `b ≠ 0`: the result has
the sign of the dividend, `a % b = a - b * trunc (a / b)`. -/
def jsRem (a b : ℚ) : ℚ :=
  a - b * (jsTrunc (a / b) : ℚ)

/-- `Math.round x` in JavaScript is `⌊x + 1/2⌋`: halves round toward `+∞`
(e.g. `Math.round (-1.5) = -1`). -/
def jsRound (q : ℚ) : ℤ :=
  ⌊q + 1 / 2⌋

/-- The exact value of the IEEE-754 double `Math.PI`
(`3.141592653589793115997963…`). -/
def jsPI : ℚ :=
  884279719003555 / 281474976710656

/-- The normalization prologue of `calculateRotatedDimensions`
(App.tsx lines 14–15): `let r = rotation % 360; if (r < 0) r += 360;`. -/
def normalizeRotation (rotation : ℚ) : ℚ :=
  let r := jsRem rotation 360
  if r < 0 then r + 360 else r

/-- The `{width, height}` record returned by `calculateRotatedDimensions`. -/
structure Dims where
  width : ℚ
  height : ℚ
deriving DecidableEq

/-- `calculateRotatedDimensions` (App.tsx lines 12–43) over `ℚ`, with the
floating-point `Math.sin` / `Math.cos` abstracted as parameters `sinA cosA`
(every theorem stated over this embedding holds for an arbitrary — hence in
particular the IEEE — implementation of the trig primitives).  The `isNaN`
guards of lines 17–19 are identities on `ℚ`, which has no NaN; the
special-value behaviour is modelled separately by
`jsCalculateRotatedDimensions`.  `0.05` is the rational `1/20`. -/
def calculateRotatedDimensions (sinA cosA : ℚ → ℚ)
    (width height rotation scale : ℚ) : Dims :=
  let r := normalizeRotation rotation
  let scaledW := width * scale
  let scaledH := height * scale
  if |r - 0| < 1 / 20 ∨ |r - 180| < 1 / 20 ∨ |r - 360| < 1 / 20 then
    ⟨scaledW, scaledH⟩
  else if |r - 90| < 1 / 20 ∨ |r - 270| < 1 / 20 then
    ⟨scaledH, scaledW⟩
  else
    let angleRad := |rotation * jsPI / 180|
    let c := |cosA angleRad|
    let s := |sinA angleRad|
    ⟨scaledH * s + scaledW * c, scaledH * c + scaledW * s⟩

/-- `Math.trunc` over the idealized real semantics: rounding toward zero. -/
noncomputable def jsTruncR (x : ℝ) : ℤ :=
  if x < 0 then ⌈x⌉ else ⌊x⌋

/-- JavaScript `a % b` over the idealized real semantics. -/
noncomputable def jsRemR (a b : ℝ) : ℝ :=
  a - b * (jsTruncR (a / b) : ℝ)

/-- The normalization prologue of `calculateRotatedDimensions` over `ℝ`. -/
noncomputable def normalizeRotationR (rotation : ℝ) : ℝ :=
  let r := jsRemR rotation 360
  if r < 0 then r + 360 else r

/-- `calculateRotatedDimensions` (App.tsx lines 12–43) over `ℝ`, with genuine
`Real.sin` / `Real.cos` and the exact `Real.pi`: the idealized real-number
semantics of the same source function that `calculateRotatedDimensions`
embeds over `ℚ`.  Note that the trig branch uses the RAW `rotation` (not the
normalized `r`) to build `angleRad`, exactly as line 34 of the source does. -/
noncomputable def calculateRotatedDimensionsR
    (width height rotation scale : ℝ) : ℝ × ℝ :=
  let r := normalizeRotationR rotation
  let scaledW := width * scale
  let scaledH := height * scale
  if |r - 0| < 1 / 20 ∨ |r - 180| < 1 / 20 ∨ |r - 360| < 1 / 20 then
    (scaledW, scaledH)
  else if |r - 90| < 1 / 20 ∨ |r - 270| < 1 / 20 then
    (scaledH, scaledW)
  else
    let angleRad := |rotation * Real.pi / 180|
    let c := |Real.cos angleRad|
    let s := |Real.sin angleRad|
    (scaledH * s + scaledW * c, scaledH * c + scaledW * s)

/-- A JavaScript number: a finite value (idealized as a rational), NaN, or a
signed infinity. -/
inductive JSNum where
  | num (q : ℚ)
  | nan
  | posInf
  | negInf
deriving DecidableEq

namespace JSNum

/-- JavaScript `isNaN`. -/
def isNaN : JSNum → Bool
  | nan => true
  | _ => false

/-- JavaScript negation. -/
def jsNeg : JSNum → JSNum
  | num q => num (-q)
  | nan => nan
  | posInf => negInf
  | negInf => posInf

/-- JavaScript addition (`Infinity + (-Infinity) = NaN`). -/
def jsAdd : JSNum → JSNum → JSNum
  | nan, _ => nan
  | _, nan => nan
  | posInf, negInf => nan
  | negInf, posInf => nan
  | posInf, _ => posInf
  | _, posInf => posInf
  | negInf, _ => negInf
  | _, negInf => negInf
  | num a, num b => num (a + b)

/-- JavaScript subtraction. -/
def jsSub (a b : JSNum) : JSNum :=
  jsAdd a (jsNeg b)

/-- JavaScript multiplication (`0 * Infinity = NaN`). -/
def jsMul : JSNum → JSNum → JSNum
  | nan, _ => nan
  | _, nan => nan
  | posInf, posInf => posInf
  | posInf, negInf => negInf
  | negInf, posInf => negInf
  | negInf, negInf => posInf
  | posInf, num b => if b = 0 then nan else if 0 < b then posInf else negInf
  | negInf, num b => if b = 0 then nan else if 0 < b then negInf else posInf
  | num a, posInf => if a = 0 then nan else if 0 < a then posInf else negInf
  | num a, negInf => if a = 0 then nan else if 0 < a then negInf else posInf
  | num a, num b => num (a * b)

/-- JavaScript division (`0/0 = NaN`, `Infinity/Infinity = NaN`, `x/0 = ±Infinity`
for `x ≠ 0`; the model has no negative zero). -/
def jsDiv : JSNum → JSNum → JSNum
  | nan, _ => nan
  | _, nan => nan
  | posInf, posInf => nan
  | posInf, negInf => nan
  | negInf, posInf => nan
  | negInf, negInf => nan
  | posInf, num b => if 0 ≤ b then posInf else negInf
  | negInf, num b => if 0 ≤ b then negInf else posInf
  | num _, posInf => num 0
  | num _, negInf => num 0
  | num a, num b =>
      if b = 0 then (if a = 0 then nan else if 0 < a then posInf else negInf)
      else num (a / b)

/-- JavaScript `<` (every comparison with NaN is false). -/
def jsLt : JSNum → JSNum → Bool
  | nan, _ => false
  | _, nan => false
  | negInf, negInf => false
  | negInf, _ => true
  | _, negInf => false
  | posInf, _ => false
  | num _, posInf => true
  | num a, num b => decide (a < b)

/-- JavaScript `Math.abs`. -/
def jsAbs : JSNum → JSNum
  | nan => nan
  | posInf => posInf
  | negInf => posInf
  | num q => num |q|

/-- JavaScript `a % b` (NaN if either operand is NaN, the dividend is infinite
or the divisor is zero; `a % ±Infinity = a` for finite `a`). -/
def jsMod : JSNum → JSNum → JSNum
  | nan, _ => nan
  | _, nan => nan
  | posInf, _ => nan
  | negInf, _ => nan
  | num a, num b => if b = 0 then nan else num (jsRem a b)
  | num a, posInf => num a
  | num a, negInf => num a

/-- `Math.sin` over `JSNum`: NaN on NaN / ±Infinity, and an arbitrary
(parametric) finite approximation `sinF` on finite input. -/
def jsSin (sinF : ℚ → ℚ) : JSNum → JSNum
  | num q => num (sinF q)
  | _ => nan

/-- `Math.cos` over `JSNum`: NaN on NaN / ±Infinity, and an arbitrary
(parametric) finite approximation `cosF` on finite input. -/
def jsCos (cosF : ℚ → ℚ) : JSNum → JSNum
  | num q => num (cosF q)
  | _ => nan

end JSNum

open JSNum in
/-- `calculateRotatedDimensions` (App.tsx lines 12–43) over the JavaScript
special-value model `JSNum`: this embedding keeps the `isNaN` coercions of
lines 17–19 (`s = isNaN(scale) ? 1 : scale`, `w = isNaN(width) ? 0 : width`,
`h = isNaN(height) ? 0 : height`) and propagates NaN / ±Infinity through the
arithmetic exactly as IEEE-754 does.  `Math.PI` is the exact dyadic value
`jsPI` of the double; `Math.sin` / `Math.cos` on finite arguments are the
abstracted parameters `sinF cosF`. -/
def jsCalculateRotatedDimensions (sinF cosF : ℚ → ℚ)
    (width height rotation scale : JSNum) : JSNum × JSNum :=
  let r0 := jsMod rotation (num 360)
  let r := if jsLt r0 (num 0) then jsAdd r0 (num 360) else r0
  let s := if isNaN scale then num 1 else scale
  let w := if isNaN width then num 0 else width
  let h := if isNaN height then num 0 else height
  let scaledW := jsMul w s
  let scaledH := jsMul h s
  if jsLt (jsAbs (jsSub r (num 0))) (num (1 / 20)) ||
      jsLt (jsAbs (jsSub r (num 180))) (num (1 / 20)) ||
      jsLt (jsAbs (jsSub r (num 360))) (num (1 / 20)) then
    (scaledW, scaledH)
  else if jsLt (jsAbs (jsSub r (num 90))) (num (1 / 20)) ||
      jsLt (jsAbs (jsSub r (num 270))) (num (1 / 20)) then
    (scaledH, scaledW)
  else
    let angleRad := jsAbs (jsDiv (jsMul rotation (num jsPI)) (num 180))
    let c := jsAbs (jsCos cosF angleRad)
    let sn := jsAbs (jsSin sinF angleRad)
    (jsAdd (jsMul scaledH sn) (jsMul scaledW c),
     jsAdd (jsMul scaledH c) (jsMul scaledW sn))

/-- A JavaScript number that is finite or NaN (i.e. not ±Infinity). -/
def JSNum.finiteOrNaN : JSNum → Prop
  | JSNum.posInf => False
  | JSNum.negInf => False
  | _ => True

instance (j : JSNum) : Decidable j.finiteOrNaN := by
  unfold JSNum.finiteOrNaN
  cases j <;> infer_instance

/-- A layer (`types.ts`, `interface Layer`).  The opaque `File` blob and the
object-URL `imageUrl` are modelled as opaque string tokens; all numeric fields
are idealized as rationals. -/
structure Layer where
  id : String
  file : String
  imageUrl : String
  name : String
  x : ℚ
  y : ℚ
  rotation : ℚ
  scale : ℚ
  opacity : ℚ
  visible : Bool
  width : ℚ
  height : ℚ
deriving DecidableEq

/-- A `Partial<Layer>` as passed to `updateLayer` / `updateSelectedLayers`:
the fields the UI actually mutates (`none` = the field is absent from the
partial object). -/
structure LayerChanges where
  name : Option String := none
  x : Option ℚ := none
  y : Option ℚ := none
  rotation : Option ℚ := none
  scale : Option ℚ := none
  opacity : Option ℚ := none
  visible : Option Bool := none
deriving DecidableEq

/-- The JavaScript spread `{ ...l, ...changes }`: every field present in
`changes` overrides the corresponding field of `l`. -/
def mergeChanges (l : Layer) (changes : LayerChanges) : Layer :=
  { l with
    name := changes.name.getD l.name,
    x := changes.x.getD l.x,
    y := changes.y.getD l.y,
    rotation := changes.rotation.getD l.rotation,
    scale := changes.scale.getD l.scale,
    opacity := changes.opacity.getD l.opacity,
    visible := changes.visible.getD l.visible }

/-- The whole `App` component state that the modelled operations touch. -/
structure AppState where
  layers : List Layer
  selectedLayerIds : Finset String
  checkedLayers : Finset String
  history : List (List Layer)
  future : List (List Layer)
deriving DecidableEq

/-- `addToHistory` (App.tsx lines 487–494): push the current sequence onto
`history`, drop the oldest entry once the length exceeds 50, and clear
`future` unconditionally. -/
def addToHistory (st : AppState) : AppState :=
  let newHistory := st.history ++ [st.layers]
  { st with
    history := if 50 < newHistory.length then newHistory.tail else newHistory,
    future := [] }

/-- `undo` (App.tsx lines 496–504): no-op on empty history, else pop the most
recent snapshot into `layers` and push the current `layers` onto the front of
`future`.  Note that neither selection nor checked set is touched. -/
def undo (st : AppState) : AppState :=
  match st.history.getLast? with
  | none => st
  | some previous =>
      { st with
        layers := previous,
        history := st.history.dropLast,
        future := st.layers :: st.future }

/-- `redo` (App.tsx lines 506–514): no-op on empty future, else pop the front
of `future` into `layers` and push the current `layers` onto `history`. -/
def redo (st : AppState) : AppState :=
  match st.future with
  | [] => st
  | next :: rest =>
      { st with
        layers := next,
        history := st.history ++ [st.layers],
        future := rest }

/-- The layer-commit step of `handleFileUpload` (App.tsx lines 518–557):
history is recorded before the batch, the new layers are appended at the end,
and the first new layer is auto-selected when nothing was selected. -/
def addLayers (st : AppState) (newLayers : List Layer) : AppState :=
  let st1 := addToHistory st
  { st1 with
    layers := st1.layers ++ newLayers,
    selectedLayerIds :=
      match newLayers with
      | [] => st1.selectedLayerIds
      | l :: _ =>
          if st.selectedLayerIds = ∅ then {l.id} else st1.selectedLayerIds }

/-- `updateLayer` (App.tsx lines 559–562). -/
def updateLayer (st : AppState) (id : String) (changes : LayerChanges)
    (recordHistory : Bool) : AppState :=
  let st1 := if recordHistory then addToHistory st else st
  { st1 with
    layers := st1.layers.map fun l =>
      if l.id = id then mergeChanges l changes else l }

/-- The per-layer body of the `updateSelectedLayers` map callback
(App.tsx lines 567–603) for a SELECTED layer: if `changes.rotation` is
present, recenter using the new rotation and the layer's CURRENT scale; else
if `changes.scale` is present, recenter using the current rotation and the
new scale; else plain merge.  The `x, y` computed by the recentering override
whatever `changes` contained (`{ ...l, ...changes, x: newX, y: newY }`). -/
def applySelectedChanges (sinA cosA : ℚ → ℚ) (changes : LayerChanges)
    (l : Layer) : Layer :=
  match changes.rotation with
  | some newRotation =>
      let oldDims :=
        calculateRotatedDimensions sinA cosA l.width l.height l.rotation l.scale
      let oldCenterX := l.x + oldDims.width / 2
      let oldCenterY := l.y + oldDims.height / 2
      let newDims :=
        calculateRotatedDimensions sinA cosA l.width l.height newRotation l.scale
      { mergeChanges l changes with
        x := oldCenterX - newDims.width / 2,
        y := oldCenterY - newDims.height / 2 }
  | none =>
      match changes.scale with
      | some newScale =>
          let oldDims :=
            calculateRotatedDimensions sinA cosA l.width l.height l.rotation
              l.scale
          let oldCenterX := l.x + oldDims.width / 2
          let oldCenterY := l.y + oldDims.height / 2
          let newDims :=
            calculateRotatedDimensions sinA cosA l.width l.height l.rotation
              newScale
          { mergeChanges l changes with
            x := oldCenterX - newDims.width / 2,
            y := oldCenterY - newDims.height / 2 }
      | none => mergeChanges l changes

/-- `updateSelectedLayers` (App.tsx lines 565–604): record history, then map
`applySelectedChanges` over exactly the selected layers. -/
def updateSelectedLayers (sinA cosA : ℚ → ℚ) (st : AppState)
    (changes : LayerChanges) : AppState :=
  let st1 := addToHistory st
  { st1 with
    layers := st1.layers.map fun l =>
      if l.id ∈ st.selectedLayerIds then
        applySelectedChanges sinA cosA changes l
      else l }

/-- `deleteSelectedLayers` (App.tsx lines 606–617): no-op on empty selection;
else record history, drop the selected layers from the sequence, prune them
from the checked set, and clear the selection. -/
def deleteSelectedLayers (st : AppState) : AppState :=
  if st.selectedLayerIds = ∅ then st
  else
    let st1 := addToHistory st
    { st1 with
      layers := st1.layers.filter fun l => l.id ∉ st.selectedLayerIds,
      checkedLayers := st.checkedLayers \ st.selectedLayerIds,
      selectedLayerIds := ∅ }

/-- `reorderLayers` (App.tsx lines 620–626): splice the layer at `fromIndex`
out and re-insert it at `toIndex`.  Callers (`handleDrop`) only invoke it
with indices obtained from successful `findIndex` calls, so both are
in-range; an out-of-range `fromIndex` is modelled as leaving the sequence
unchanged (history is still recorded, as in the source), and `toIndex` is
clamped to the spliced array's length exactly as `Array.prototype.splice`
clamps its start offset. -/
def reorderLayers (st : AppState) (fromIndex toIndex : ℕ) : AppState :=
  let st1 := addToHistory st
  match st.layers[fromIndex]? with
  | none => st1
  | some removed =>
      let rest := st.layers.eraseIdx fromIndex
      { st1 with
        layers := rest.insertIdx (min toIndex rest.length) removed }

/-- `toggleLayerCheck` (App.tsx lines 657–665). -/
def toggleLayerCheck (st : AppState) (id : String) : AppState :=
  { st with
    checkedLayers :=
      if id ∈ st.checkedLayers then st.checkedLayers.erase id
      else insert id st.checkedLayers }

/-- `toggleAllChecks` (App.tsx lines 667–673). -/
def toggleAllChecks (st : AppState) : AppState :=
  { st with
    checkedLayers :=
      if st.checkedLayers.card = st.layers.length ∧ 0 < st.layers.length then ∅
      else (st.layers.map Layer.id).toFinset }

/-- `toggleLayerSelection` (App.tsx lines 675–684). -/
def toggleLayerSelection (st : AppState) (id : String) (multi : Bool) :
    AppState :=
  if multi then
    { st with
      selectedLayerIds :=
        if id ∈ st.selectedLayerIds then st.selectedLayerIds.erase id
        else insert id st.selectedLayerIds }
  else { st with selectedLayerIds := {id} }

/-- The marquee (box-selection) branch of `handleMouseMove`
(App.tsx lines 877–905): the marquee rectangle is rebuilt from the drag start
and the current pointer position, the base selection is the existing one iff
shift is held, and every layer whose zoom-and-pan-transformed bounding box
intersects the rectangle is added — with NO visibility test. -/
def marqueeSelect (sinA cosA : ℚ → ℚ) (shiftKey : Bool)
    (selectedLayerIds : Finset String) (layers : List Layer)
    (zoom panX panY startX startY currentX currentY : ℚ) : Finset String :=
  let x := min startX currentX
  let y := min startY currentY
  let w := |startX - currentX|
  let h := |startY - currentY|
  layers.foldl
    (fun newSelected l =>
      let dims :=
        calculateRotatedDimensions sinA cosA l.width l.height l.rotation l.scale
      let lx := l.x * zoom + panX
      let ly := l.y * zoom + panY
      let lw := dims.width * zoom
      let lh := dims.height * zoom
      if x < lx + lw ∧ x + w > lx ∧ y < ly + lh ∧ y + h > ly then
        insert l.id newSelected
      else newSelected)
    (if shiftKey then selectedLayerIds else ∅)

/-- One exported record (`types.ts`, `interface ExportData`). -/
structure ExportData where
  filename : String
  shift_x : ℤ
  shift_y : ℤ
  rotate : ℚ
  layer_order : ℕ
deriving DecidableEq

/-- The record built for one layer by `prepareExport` (App.tsx lines 741–747
and 753–759; the JSON and CSV branches emit the same values):
`shift_x = Math.round(x)`, `shift_y = Math.round(y)`,
`rotate = Math.round(rotation * 100) / 100`, `layer_order = index` within the
exported subset. -/
def exportRecord (index : ℕ) (layer : Layer) : ExportData :=
  { filename := layer.name,
    shift_x := jsRound layer.x,
    shift_y := jsRound layer.y,
    rotate := (jsRound (layer.rotation * 100) : ℚ) / 100,
    layer_order := index }

/-- `layersToExport.map((layer, index) => ...)`. -/
def exportRecords : ℕ → List Layer → List ExportData
  | _, [] => []
  | index, layer :: rest => exportRecord index layer :: exportRecords (index + 1) rest

/-- `prepareExport` (App.tsx lines 727–771): `none` models the early returns
(no export modal opened); the produced records are the same for the JSON and
the CSV format. -/
def prepareExport (layers : List Layer) (checkedLayers : Finset String) :
    Option (List ExportData) :=
  if layers.length = 0 then none
  else
    let layersToExport :=
      if 0 < checkedLayers.card then
        layers.filter fun l => l.id ∈ checkedLayers
      else layers
    if layersToExport.length = 0 then none
    else some (exportRecords 0 layersToExport)

/-- The center of a layer's axis-aligned bounding box, as derived throughout
App.tsx: top-left plus half the rotated dimensions. -/
def bboxCenter (sinA cosA : ℚ → ℚ) (l : Layer) : ℚ × ℚ :=
  let dims :=
    calculateRotatedDimensions sinA cosA l.width l.height l.rotation l.scale
  (l.x + dims.width / 2, l.y + dims.height / 2)

/-- A sample layer used by concrete counterexamples and witnesses:
a 100×50 image at the origin with identity transform. -/
def sampleLayer : Layer :=
  { id := "a", file := "f", imageUrl := "u", name := "a.png",
    x := 0, y := 0, rotation := 0, scale := 1, opacity := 1,
    visible := true, width := 100, height := 50 }

/-- A sample app state holding only `sampleLayer`, which is selected. -/
def sampleState : AppState :=
  { layers := [sampleLayer],
    selectedLayerIds := {"a"},
    checkedLayers := ∅,
    history := [],
    future := [] }

/-- One recorded mutation: `addToHistory()` followed by `setLayers(next)` —
the pattern shared by `handleFileUpload`, `updateLayer`,
`updateSelectedLayers`, `deleteSelectedLayers` and `reorderLayers`. -/
def recordMutation (st : AppState) (next : List Layer) : AppState :=
  { addToHistory st with layers := next }

/-- A sequence of recorded mutations applied in order. -/
def applyMutations (st : AppState) (ms : List (List Layer)) : AppState :=
  ms.foldl recordMutation st

/-- Proof-local view of a history state: `rev` lists the snapshots from the
most recent (the current `layers`) back to the oldest, and `F` is the redo
stack. -/
def stOfRev (sel chk : Finset String) (rev F : List (List Layer)) : AppState :=
  { layers := rev.headD [],
    selectedLayerIds := sel,
    checkedLayers := chk,
    history := rev.tail.reverse,
    future := F }

/-- Modelled from the spec: rounding to the nearest integer with ties
(halves) rounded away from zero — the rounding behaviour the spec claims for
`shift_x` / `shift_y`.  Spec-side definition, compared against the code's
`Math.round` (`jsRound`). -/
def roundHalfAwayFromZero (q : ℚ) : ℤ :=
  if q < 0 then -⌊-q + 1 / 2⌋ else ⌊q + 1 / 2⌋

/-- The dangling-reference invariant: every id in the selection set and every
id in the checked set names a layer present in the current sequence. -/
def idInvariant (st : AppState) : Prop :=
  (∀ id ∈ st.selectedLayerIds, id ∈ st.layers.map Layer.id) ∧
  (∀ id ∈ st.checkedLayers, id ∈ st.layers.map Layer.id)

lemma normalizeRotation_zero : normalizeRotation 0 = 0 := by
  norm_num [normalizeRotation, jsRem, jsTrunc]

lemma normalizeRotation_ninety : normalizeRotation 90 = 90 := by
  norm_num [normalizeRotation, jsRem, jsTrunc]

lemma normalizeRotation_oneEighty : normalizeRotation 180 = 180 := by
  norm_num [normalizeRotation, jsRem, jsTrunc]

lemma normalizeRotation_twoSeventy : normalizeRotation 270 = 270 := by
  norm_num [normalizeRotation, jsRem, jsTrunc]

lemma normalizeRotation_threeSixty : normalizeRotation 360 = 0 := by
  norm_num [normalizeRotation, jsRem, jsTrunc]

lemma normalizeRotation_negNinety : normalizeRotation (-90) = 270 := by
  have h : ⌈-((1 : ℚ) / 4)⌉ = 0 := by norm_num
  norm_num [normalizeRotation, jsRem, jsTrunc, h]

lemma normalizeRotation_negOneEighty : normalizeRotation (-180) = 180 := by
  have h : ⌈-((1 : ℚ) / 2)⌉ = 0 := by norm_num
  norm_num [normalizeRotation, jsRem, jsTrunc, h]

/-- C1: for every rotation in `{0, 90, 180, 270, 360, -90, -180}` and all
positive width, height and scale, `calculateRotatedDimensions` returns exactly
`{width*scale, height*scale}` for `0, 180, 360, -180` and exactly
`{height*scale, width*scale}` for `90, 270, -90`, for EVERY implementation
`sinA cosA` of the trigonometric primitives — i.e. with no trig error at all
(the snap branch is taken and the result is exact). -/
theorem calculateRotatedDimensions_orthogonal_exact
    (sinA cosA : ℚ → ℚ) (width height scale : ℚ)
    (_hw : 0 < width) (_hh : 0 < height) (_hs : 0 < scale)
    (rotation : ℚ)
    (hr : rotation ∈ ([0, 90, 180, 270, 360, -90, -180] : List ℚ)) :
    calculateRotatedDimensions sinA cosA width height rotation scale =
      if rotation = 90 ∨ rotation = 270 ∨ rotation = -90 then
        ⟨height * scale, width * scale⟩
      else
        ⟨width * scale, height * scale⟩ := by
  fin_cases hr <;>
    simp only [calculateRotatedDimensions, normalizeRotation_zero,
      normalizeRotation_ninety, normalizeRotation_oneEighty,
      normalizeRotation_twoSeventy, normalizeRotation_threeSixty,
      normalizeRotation_negNinety, normalizeRotation_negOneEighty] <;>
    norm_num

/-- Witness for C1 at `sinA = cosA = (fun _ => 37/100)`, `width = 2`,
`height = 3`, `scale = 5`, `rotation = -90`. -/
theorem calculateRotatedDimensions_orthogonal_exact_witness :
    (0 : ℚ) < 2 ∧
      calculateRotatedDimensions (fun _ => 37 / 100) (fun _ => 37 / 100)
        2 3 (-90) 5 = ⟨15, 10⟩ := by
  refine ⟨by norm_num, ?_⟩
  have h := calculateRotatedDimensions_orthogonal_exact
    (fun _ => 37 / 100) (fun _ => 37 / 100) 2 3 5
    (by norm_num) (by norm_num) (by norm_num) (-90) (by norm_num)
  norm_num at h
  exact h

lemma abs_cos_abs (x : ℝ) : |Real.cos (|x|)| = |Real.cos x| := by
  rw [Real.cos_abs]

lemma abs_sin_abs (x : ℝ) : |Real.sin (|x|)| = |Real.sin x| := by
  rcases abs_cases x with ⟨h1, _⟩ | ⟨h1, _⟩ <;> rw [h1]
  rw [Real.sin_neg, abs_neg]

lemma normalizeRotationR_thirtySeven : normalizeRotationR 37 = 37 := by
  have hfl : ⌊(37 : ℝ) / 360⌋ = 0 := by
    rw [Int.floor_eq_zero_iff]
    constructor <;> norm_num
  norm_num [normalizeRotationR, jsRemR, jsTruncR, hfl]

/-- C2: whenever the normalized rotation is at least `0.05°` away from each of
`0, 90, 180, 270, 360`, the bounding box is computed by the trig formula
`newW = scaledH·|sin θ| + scaledW·|cos θ|`,
`newH = scaledH·|cos θ| + scaledW·|sin θ|` with `θ = rotation·π/180`; in
particular at `width = 100`, `height = 50`, `scale = 1`, `rotation = 37°` the
result matches the reference formula within `1e-6` (here: exactly, hence
within the tolerance). -/
theorem calculateRotatedDimensionsR_formula :
    (∀ width height rotation scale : ℝ,
      (∀ k ∈ ([0, 90, 180, 270, 360] : List ℝ),
          1 / 20 ≤ |normalizeRotationR rotation - k|) →
      calculateRotatedDimensionsR width height rotation scale =
        (height * scale * |Real.sin (rotation * Real.pi / 180)| +
            width * scale * |Real.cos (rotation * Real.pi / 180)|,
         height * scale * |Real.cos (rotation * Real.pi / 180)| +
            width * scale * |Real.sin (rotation * Real.pi / 180)|)) ∧
    |(calculateRotatedDimensionsR 100 50 37 1).1 -
        (50 * |Real.sin (37 * Real.pi / 180)| +
          100 * |Real.cos (37 * Real.pi / 180)|)| ≤ 1 / 1000000 ∧
    |(calculateRotatedDimensionsR 100 50 37 1).2 -
        (50 * |Real.cos (37 * Real.pi / 180)| +
          100 * |Real.sin (37 * Real.pi / 180)|)| ≤ 1 / 1000000 := by
  have main : ∀ width height rotation scale : ℝ,
      (∀ k ∈ ([0, 90, 180, 270, 360] : List ℝ),
          1 / 20 ≤ |normalizeRotationR rotation - k|) →
      calculateRotatedDimensionsR width height rotation scale =
        (height * scale * |Real.sin (rotation * Real.pi / 180)| +
            width * scale * |Real.cos (rotation * Real.pi / 180)|,
         height * scale * |Real.cos (rotation * Real.pi / 180)| +
            width * scale * |Real.sin (rotation * Real.pi / 180)|) := by
    intro width height rotation scale hfar
    have h0 := hfar 0 (by norm_num)
    have h90 := hfar 90 (by norm_num)
    have h180 := hfar 180 (by norm_num)
    have h270 := hfar 270 (by norm_num)
    have h360 := hfar 360 (by norm_num)
    simp only [calculateRotatedDimensionsR]
    rw [if_neg, if_neg]
    · rw [abs_sin_abs, abs_cos_abs]
    · rintro (h | h) <;> linarith [le_of_lt (lt_of_le_of_lt (by assumption) h)]
    · rintro (h | h | h) <;>
        linarith [le_of_lt (lt_of_le_of_lt (by assumption) h)]
  refine ⟨main, ?_, ?_⟩ <;>
  · rw [main 100 50 37 1 (by
      intro k hk
      rw [normalizeRotationR_thirtySeven]
      fin_cases hk <;> norm_num)]
    norm_num

/-- Witness for C2: the general formula applied at
`width = 100`, `height = 50`, `rotation = 37`, `scale = 1`. -/
theorem calculateRotatedDimensionsR_formula_witness :
    calculateRotatedDimensionsR 100 50 37 1 =
      (50 * 1 * |Real.sin (37 * Real.pi / 180)| +
          100 * 1 * |Real.cos (37 * Real.pi / 180)|,
       50 * 1 * |Real.cos (37 * Real.pi / 180)| +
          100 * 1 * |Real.sin (37 * Real.pi / 180)|) := by
  exact calculateRotatedDimensionsR_formula.1 100 50 37 1 (by
    intro k hk
    rw [normalizeRotationR_thirtySeven]
    fin_cases hk <;> norm_num)

lemma finiteOrNaN_iff (j : JSNum) :
    j.finiteOrNaN ↔ j = JSNum.nan ∨ ∃ q, j = JSNum.num q := by
  cases j <;> simp [JSNum.finiteOrNaN]

/-- C4 fails as stated: the function CAN return NaN.  A NaN rotation (which no
guard coerces) reaches the trig branch and poisons both components, already
with perfectly finite width, height and scale. -/
theorem jsCalculateRotatedDimensions_nan_output :
    (jsCalculateRotatedDimensions (fun _ => 0) (fun _ => 0)
        (JSNum.num 1) (JSNum.num 1) JSNum.nan (JSNum.num 1)).1.isNaN = true ∧
    (jsCalculateRotatedDimensions (fun _ => 0) (fun _ => 0)
        (JSNum.num 1) (JSNum.num 1) JSNum.nan (JSNum.num 1)).2.isNaN = true := by
  constructor <;> rfl

/-- C4, amended: a NaN `scale` is treated as `1` and NaN `width` / `height`
are treated as `0` before computation (±Infinity is NOT coerced, and
`rotation` is never coerced); consequently, whenever `rotation` is finite and
each of `width`, `height`, `scale` is finite or NaN, the returned components
are never NaN. -/
theorem jsCalculateRotatedDimensions_nan_coercion
    (sinF cosF : ℚ → ℚ) :
    (∀ w h r, jsCalculateRotatedDimensions sinF cosF w h r JSNum.nan =
        jsCalculateRotatedDimensions sinF cosF w h r (JSNum.num 1)) ∧
    (∀ h r s, jsCalculateRotatedDimensions sinF cosF JSNum.nan h r s =
        jsCalculateRotatedDimensions sinF cosF (JSNum.num 0) h r s) ∧
    (∀ w r s, jsCalculateRotatedDimensions sinF cosF w JSNum.nan r s =
        jsCalculateRotatedDimensions sinF cosF w (JSNum.num 0) r s) ∧
    (∀ w h s (rq : ℚ), w.finiteOrNaN → h.finiteOrNaN → s.finiteOrNaN →
      (jsCalculateRotatedDimensions sinF cosF w h (JSNum.num rq) s).1.isNaN
          = false ∧
      (jsCalculateRotatedDimensions sinF cosF w h (JSNum.num rq) s).2.isNaN
          = false) := by
  refine ⟨fun w h r => rfl, fun h r s => rfl, fun w r s => rfl, ?_⟩
  intro w h s rq hw hh hs
  rcases (finiteOrNaN_iff w).mp hw with rfl | ⟨wq, rfl⟩ <;>
    rcases (finiteOrNaN_iff h).mp hh with rfl | ⟨hq, rfl⟩ <;>
      rcases (finiteOrNaN_iff s).mp hs with rfl | ⟨sq, rfl⟩ <;>
  · simp only [jsCalculateRotatedDimensions, JSNum.jsMod, JSNum.isNaN,
      JSNum.jsMul, JSNum.jsAdd, JSNum.jsSub, JSNum.jsNeg, JSNum.jsAbs,
      JSNum.jsDiv, JSNum.jsLt, JSNum.jsSin, JSNum.jsCos]
    norm_num
    all_goals split_ifs <;> simp [JSNum.isNaN, JSNum.jsMul, JSNum.jsAdd]

/-- Witness for the amended C4 theorem: width finite, height NaN,
scale finite, rotation `37`. -/
theorem jsCalculateRotatedDimensions_nan_coercion_witness :
    (jsCalculateRotatedDimensions (fun _ => 1 / 2) (fun _ => 1 / 3)
        (JSNum.num 1) JSNum.nan (JSNum.num 37) (JSNum.num 2)).1.isNaN
      = false := by
  exact ((jsCalculateRotatedDimensions_nan_coercion (fun _ => 1 / 2)
    (fun _ => 1 / 3)).2.2.2 (JSNum.num 1) JSNum.nan (JSNum.num 2) 37
    trivial trivial trivial).1

lemma applySelectedChanges_rotation_center (sinA cosA : ℚ → ℚ)
    (changes : LayerChanges) (l : Layer) (r : ℚ)
    (hr : changes.rotation = some r) (hsc : changes.scale = none) :
    bboxCenter sinA cosA (applySelectedChanges sinA cosA changes l) =
      bboxCenter sinA cosA l := by
  simp only [applySelectedChanges, hr, bboxCenter, mergeChanges, hsc,
    Option.getD_none, Option.getD_some]
  rw [Prod.mk.injEq]
  constructor <;> ring

lemma applySelectedChanges_scale_center (sinA cosA : ℚ → ℚ)
    (changes : LayerChanges) (l : Layer) (sc : ℚ)
    (hr : changes.rotation = none) (hsc : changes.scale = some sc) :
    bboxCenter sinA cosA (applySelectedChanges sinA cosA changes l) =
      bboxCenter sinA cosA l := by
  simp only [applySelectedChanges, hr, hsc, bboxCenter, mergeChanges,
    Option.getD_none, Option.getD_some]
  rw [Prod.mk.injEq]
  constructor <;> ring

/-- C3, amended: when a batch update changes `rotation` without `scale`, or
`scale` without `rotation`, every selected layer is recentered so that the
center of its bounding box (computed from the merged rotation and scale) is
unchanged — and unselected layers are untouched, so `updateSelectedLayers`
preserves the bounding-box center of EVERY layer.  (When one update carries
both `rotation` and `scale`, the recentering uses the new rotation with the
OLD scale, and the merged-box center moves: see the counterexample.) -/
theorem updateSelectedLayers_single_change_preserves_center
    (sinA cosA : ℚ → ℚ) (st : AppState) (changes : LayerChanges)
    (h : (changes.rotation.isSome ∧ changes.scale = none) ∨
        (changes.rotation = none ∧ changes.scale.isSome)) :
    (updateSelectedLayers sinA cosA st changes).layers.map
        (bboxCenter sinA cosA) =
      st.layers.map (bboxCenter sinA cosA) := by
  have per : ∀ l : Layer,
      bboxCenter sinA cosA (applySelectedChanges sinA cosA changes l) =
        bboxCenter sinA cosA l := by
    intro l
    rcases h with ⟨h1, h2⟩ | ⟨h1, h2⟩
    · obtain ⟨r, hr⟩ := Option.isSome_iff_exists.mp h1
      exact applySelectedChanges_rotation_center sinA cosA changes l r hr h2
    · obtain ⟨sc, hsc⟩ := Option.isSome_iff_exists.mp h2
      exact applySelectedChanges_scale_center sinA cosA changes l sc h1 hsc
  simp only [updateSelectedLayers, addToHistory, List.map_map]
  refine List.map_congr_left ?_
  intro l _
  by_cases hmem : l.id ∈ st.selectedLayerIds <;>
    simp [hmem, Function.comp, per l]

/-- C3 fails as stated when one update changes rotation and scale together:
on the selected 100×50 layer at the origin (center `(50, 25)`), the update
`{rotation: 90, scale: 2}` recenters with the new rotation but the OLD scale,
and the bounding-box center computed from the merged rotation AND scale ends
up at `(75, 75) ≠ (50, 25)`. -/
theorem updateSelectedLayers_both_changes_moves_center :
    (updateSelectedLayers (fun _ => 0) (fun _ => 0) sampleState
          { rotation := some 90, scale := some 2 }).layers.map
        (bboxCenter (fun _ => 0) (fun _ => 0)) = [(75, 75)] ∧
    sampleState.layers.map (bboxCenter (fun _ => 0) (fun _ => 0)) =
      [(50, 25)] ∧
    ((75 : ℚ), (75 : ℚ)) ≠ ((50 : ℚ), (25 : ℚ)) := by
  refine ⟨?_, ?_, by norm_num⟩ <;>
  · simp only [updateSelectedLayers, addToHistory, applySelectedChanges,
      sampleState, sampleLayer, bboxCenter, mergeChanges, List.map_cons,
      List.map_nil, calculateRotatedDimensions, normalizeRotation_zero,
      normalizeRotation_ninety]
    norm_num [normalizeRotation_zero, normalizeRotation_ninety]

/-- Witness for the amended C3 theorem: a rotation-only update on the sample
state. -/
theorem updateSelectedLayers_single_change_preserves_center_witness :
    (updateSelectedLayers (fun _ => 0) (fun _ => 0) sampleState
          { rotation := some 90 }).layers.map
        (bboxCenter (fun _ => 0) (fun _ => 0)) =
      sampleState.layers.map (bboxCenter (fun _ => 0) (fun _ => 0)) := by
  exact updateSelectedLayers_single_change_preserves_center
    (fun _ => 0) (fun _ => 0) sampleState { rotation := some 90 }
    (Or.inl ⟨rfl, rfl⟩)

lemma undo_stOfRev (sel chk : Finset String) (c d : List Layer)
    (rest F : List (List Layer)) :
    undo (stOfRev sel chk (c :: d :: rest) F) =
      stOfRev sel chk (d :: rest) (c :: F) := by
  have hlast : ((d :: rest).reverse).getLast? = some d := by simp
  simp [undo, stOfRev, hlast, List.reverse_cons]

lemma redo_stOfRev (sel chk : Finset String) (c f : List Layer)
    (rest F : List (List Layer)) :
    redo (stOfRev sel chk (c :: rest) (f :: F)) =
      stOfRev sel chk (f :: c :: rest) F := by
  simp [redo, stOfRev, List.reverse_cons]

lemma undoN_stOfRev (sel chk : Finset String) :
    ∀ (k : ℕ) (rev F : List (List Layer)), k < rev.length →
      undo^[k] (stOfRev sel chk rev F) =
        stOfRev sel chk (rev.drop k) ((rev.take k).reverse ++ F) := by
  intro k
  induction k with
  | zero => intro rev F _; simp
  | succ k ih =>
      intro rev F hk
      match rev with
      | [] => simp at hk
      | [c] => simp only [List.length_cons, List.length_nil] at hk; omega
      | c :: d :: rest =>
          rw [Function.iterate_succ_apply, undo_stOfRev]
          rw [ih (d :: rest) (c :: F) (by simp at hk ⊢; omega)]
          simp [List.reverse_cons, List.append_assoc]

lemma redoN_stOfRev (sel chk : Finset String) :
    ∀ (j : ℕ) (rev F : List (List Layer)), rev ≠ [] → j ≤ F.length →
      redo^[j] (stOfRev sel chk rev F) =
        stOfRev sel chk ((F.take j).reverse ++ rev) (F.drop j) := by
  intro j
  induction j with
  | zero => intro rev F _ _; simp
  | succ j ih =>
      intro rev F hrev hj
      match F with
      | [] => simp at hj
      | f :: F2 =>
          match rev with
          | [] => exact absurd rfl hrev
          | c :: rest =>
              rw [Function.iterate_succ_apply, redo_stOfRev]
              rw [ih (f :: c :: rest) F2 (by simp) (by simp at hj ⊢; omega)]
              simp [List.reverse_cons, List.append_assoc]

lemma reverse_tail_reverse {α : Type} (l : List α) :
    l.reverse.tail.reverse = l.dropLast := by
  cases l using List.reverseRecOn with
  | nil => simp
  | append_singleton xs x => simp

lemma take_reverse_append_drop {α : Type} (rev : List α) (N j : ℕ)
    (hlen : rev.length = N + 1) (hj : j ≤ N) :
    (((rev.take N).reverse).take j).reverse ++ rev.drop N =
      rev.drop (N - j) := by
  rw [List.take_reverse, List.reverse_reverse]
  have hlt : (rev.take N).length = N := by rw [List.length_take, hlen]; omega
  rw [hlt, List.drop_take]
  have h1 : N - (N - j) = j := by omega
  rw [h1]
  have h2 : rev.drop N = (rev.drop (N - j)).drop j := by
    rw [List.drop_drop]; congr 1; omega
  rw [h2, List.take_append_drop]

lemma applyMutations_spec :
    ∀ (ms : List (List Layer)) (st : AppState), ms ≠ [] →
      st.history.length + ms.length ≤ 50 →
      applyMutations st ms =
        { layers := ms.getLast?.getD [],
          selectedLayerIds := st.selectedLayerIds,
          checkedLayers := st.checkedLayers,
          history := st.history ++ st.layers :: ms.dropLast,
          future := [] } := by
  intro ms
  induction ms with
  | nil => intro st h _; exact absurd rfl h
  | cons m ms2 ih =>
      intro st _ hlen
      cases ms2 with
      | nil =>
          simp only [applyMutations, List.foldl_cons, List.foldl_nil,
            recordMutation, addToHistory]
          rw [if_neg (by simp at hlen ⊢; omega)]
          simp
      | cons m2 ms3 =>
          have hstep : applyMutations st (m :: m2 :: ms3) =
              applyMutations (recordMutation st m) (m2 :: ms3) := rfl
          rw [hstep, ih (recordMutation st m) (by simp) (by
            simp only [recordMutation, addToHistory] at *
            rw [if_neg (by simp at hlen ⊢; omega)]
            simp at hlen ⊢
            omega)]
          simp only [recordMutation, addToHistory]
          rw [if_neg (by simp at hlen ⊢; omega)]
          simp [List.getLast?_cons_cons, List.append_assoc]

lemma applyMutations_eq_stOfRev (st : AppState) (ms : List (List Layer))
    (hne : ms ≠ []) (hh : st.history = []) (hlen : ms.length ≤ 50) :
    applyMutations st ms =
      stOfRev st.selectedLayerIds st.checkedLayers
        ((st.layers :: ms).reverse) [] := by
  rw [applyMutations_spec ms st hne (by rw [hh]; simpa using hlen)]
  cases ms with
  | nil => exact absurd rfl hne
  | cons m ms2 =>
      unfold stOfRev
      rw [reverse_tail_reverse]
      simp [hh, List.headD_eq_head?_getD, List.head?_reverse,
        List.getLast?_cons]
      cases h : ms2.getLast? <;> simp [h]

/-- C5: starting from an empty history, after any `N ≤ 50` recorded mutations
(each pushes the pre-mutation sequence and clears the redo stack), undoing
`k ≤ N` times exposes exactly the `(N-k)`-th snapshot, redoing `j ≤ N` times
after a full undo exposes exactly the `j`-th snapshot, undoing `N` times and
then redoing `N` times restores the state exactly; and `undo` with empty past
and `redo` with empty future leave the state unchanged. -/
theorem history_undo_redo_roundtrip (st : AppState) (ms : List (List Layer))
    (hh : st.history = []) (hN : ms.length ≤ 50) :
    (∀ k ≤ ms.length,
        (undo^[k] (applyMutations st ms)).layers =
          (st.layers :: ms).getD (ms.length - k) []) ∧
    (∀ j ≤ ms.length,
        (redo^[j] (undo^[ms.length] (applyMutations st ms))).layers =
          (st.layers :: ms).getD j []) ∧
    redo^[ms.length] (undo^[ms.length] (applyMutations st ms)) =
      applyMutations st ms ∧
    (∀ st2 : AppState, st2.history = [] → undo st2 = st2) ∧
    (∀ st2 : AppState, st2.future = [] → redo st2 = st2) := by
  have hundo : ∀ st2 : AppState, st2.history = [] → undo st2 = st2 := by
    intro st2 h2; simp [undo, h2]
  have hredo : ∀ st2 : AppState, st2.future = [] → redo st2 = st2 := by
    intro st2 h2; simp [redo, h2]
  rcases eq_or_ne ms [] with rfl | hne
  · refine ⟨?_, ?_, rfl, hundo, hredo⟩ <;>
    · intro k hk
      have hk0 : k = 0 := by simpa using hk
      subst hk0
      simp [applyMutations]
  · have hSeq := applyMutations_eq_stOfRev st ms hne hh hN
    have hrevlen : ((st.layers :: ms).reverse).length = ms.length + 1 := by
      simp
    have hdropne : (((st.layers :: ms).reverse).drop ms.length) ≠ [] := by
      apply List.ne_nil_of_length_pos
      simp
    have hFlen : ∀ j, j ≤ ms.length →
        j ≤ ((((st.layers :: ms).reverse).take ms.length).reverse).length := by
      intro j hj
      simp
      omega
    refine ⟨?_, ?_, ?_, hundo, hredo⟩
    · intro k hk
      rw [hSeq, undoN_stOfRev _ _ k _ _ (by rw [hrevlen]; omega)]
      simp only [stOfRev]
      rw [List.headD_eq_head?_getD, List.head?_drop,
        List.getElem?_reverse (by simp; omega), ← List.getD_eq_getElem?_getD]
      congr 1
    · intro j hj
      rw [hSeq, undoN_stOfRev _ _ ms.length _ _ (by rw [hrevlen]; omega)]
      simp only [List.append_nil]
      rw [redoN_stOfRev _ _ j _ _ hdropne (hFlen j hj)]
      rw [take_reverse_append_drop _ ms.length j hrevlen hj]
      simp only [stOfRev]
      rw [List.headD_eq_head?_getD, List.head?_drop,
        List.getElem?_reverse (by simp; omega), ← List.getD_eq_getElem?_getD]
      congr 1
      simp only [List.length_cons]
      omega
    · rw [hSeq, undoN_stOfRev _ _ ms.length _ _ (by rw [hrevlen]; omega)]
      simp only [List.append_nil]
      rw [redoN_stOfRev _ _ ms.length _ _ hdropne (hFlen ms.length le_rfl)]
      rw [take_reverse_append_drop _ ms.length ms.length hrevlen le_rfl]
      have h0 : ms.length - ms.length = 0 := by omega
      have hFd : ((((st.layers :: ms).reverse).take ms.length).reverse).drop
          ms.length = [] := by
        apply List.drop_eq_nil_of_le
        simp
      rw [h0, List.drop_zero, hFd]

/-- Witness for C5: two concrete mutations from the sample state; one undo
exposes the intermediate snapshot, and two undos followed by two redos
restore the final state. -/
theorem history_undo_redo_roundtrip_witness :
    (undo^[1] (applyMutations sampleState [[], [sampleLayer]])).layers = [] ∧
    redo^[2] (undo^[2] (applyMutations sampleState [[], [sampleLayer]])) =
      applyMutations sampleState [[], [sampleLayer]] := by
  constructor
  · have h := (history_undo_redo_roundtrip sampleState [[], [sampleLayer]]
      rfl (by norm_num)).1 1 (by norm_num)
    simpa using h
  · have h := (history_undo_redo_roundtrip sampleState [[], [sampleLayer]]
      rfl (by norm_num)).2.2.1
    simpa using h

lemma exportRecords_map_order :
    ∀ (i : ℕ) (ls : List Layer),
      (exportRecords i ls).map ExportData.layer_order = List.range' i ls.length := by
  intro i ls
  induction ls generalizing i with
  | nil => simp [exportRecords]
  | cons l ls ih =>
      simp only [exportRecords, exportRecord, List.map_cons, ih, List.length_cons]
      rfl

lemma exportRecords_map_filename :
    ∀ (i : ℕ) (ls : List Layer),
      (exportRecords i ls).map ExportData.filename = ls.map Layer.name := by
  intro i ls
  induction ls generalizing i with
  | nil => simp [exportRecords]
  | cons l ls ih => simp [exportRecords, exportRecord, ih]

lemma exportRecords_length (i : ℕ) (ls : List Layer) :
    (exportRecords i ls).length = ls.length := by
  induction ls generalizing i with
  | nil => simp [exportRecords]
  | cons l ls ih => simp [exportRecords, ih]

lemma prepareExport_eq (layers : List Layer) (checked : Finset String) :
    prepareExport layers checked =
      (if (if 0 < checked.card then layers.filter (fun l => l.id ∈ checked)
           else layers) = []
       then none
       else some (exportRecords 0
          (if 0 < checked.card then layers.filter (fun l => l.id ∈ checked)
           else layers))) := by
  simp only [prepareExport]
  split_ifs <;> simp_all [List.length_eq_zero]

lemma exportRecords_mem :
    ∀ (i : ℕ) (ls : List Layer) (r : ExportData), r ∈ exportRecords i ls →
      ∃ l ∈ ls, r.filename = l.name ∧ r.shift_x = jsRound l.x ∧
        r.shift_y = jsRound l.y := by
  intro i ls
  induction ls generalizing i with
  | nil => intro r hr; simp [exportRecords] at hr
  | cons l ls ih =>
      intro r hr
      rcases (by simpa [exportRecords] using hr :
          r = exportRecord i l ∨ r ∈ exportRecords (i + 1) ls) with rfl | hmem
      · exact ⟨l, by simp, rfl, rfl, rfl⟩
      · obtain ⟨l2, hl2, hprops⟩ := ih (i + 1) r hmem
        exact ⟨l2, by simp [hl2], hprops⟩

/-- C6: the export source set is the checked layers when the checked set is
non-empty and all layers otherwise; iteration is in sequence order
(the exported filenames are exactly the source layers' names in order);
`layer_order` is the contiguous 0-based index within the exported subset; and
no output is produced exactly when the source set is empty. -/
theorem prepareExport_subset_order (layers : List Layer)
    (checked : Finset String) :
    (prepareExport layers checked = none ↔
      (if 0 < checked.card then layers.filter (fun l => l.id ∈ checked)
       else layers) = []) ∧
    (∀ rows, prepareExport layers checked = some rows →
      rows.map ExportData.layer_order = List.range rows.length ∧
      rows.map ExportData.filename =
        (if 0 < checked.card then layers.filter (fun l => l.id ∈ checked)
         else layers).map Layer.name) := by
  rw [prepareExport_eq]
  by_cases hsrc : (if 0 < checked.card then
      layers.filter (fun l => l.id ∈ checked) else layers) = []
  · simp only [hsrc]
    simp
  · rw [if_neg hsrc]
    refine ⟨iff_of_false (by simp) hsrc, ?_⟩
    intro rows hrows
    obtain rfl : exportRecords 0 (if 0 < checked.card then
        layers.filter (fun l => l.id ∈ checked) else layers) = rows :=
      Option.some.inj hrows
    refine ⟨?_, exportRecords_map_filename 0 _⟩
    rw [exportRecords_map_order, exportRecords_length, List.range_eq_range']

/-- Witness for C6: three layers with one checked export as exactly one
record with `layer_order = 0`. -/
theorem prepareExport_subset_order_witness :
    ([(⟨"a.png", 0, 0, 0, 0⟩ : ExportData)].map ExportData.layer_order =
      List.range 1) ∧
    ((prepareExport [sampleLayer, { sampleLayer with id := "b" },
        { sampleLayer with id := "c" }] {"b"} = none) ↔
      (if 0 < ({"b"} : Finset String).card then
        [sampleLayer, { sampleLayer with id := "b" },
          { sampleLayer with id := "c" }].filter
            (fun l => l.id ∈ ({"b"} : Finset String))
      else [sampleLayer, { sampleLayer with id := "b" },
            { sampleLayer with id := "c" }]) = []) := by
  constructor
  · have h := (prepareExport_subset_order [sampleLayer,
      { sampleLayer with id := "b" }, { sampleLayer with id := "c" }]
      {"b"}).2 [⟨"a.png", 0, 0, 0, 0⟩]
      (by
        rw [prepareExport_eq]
        simp only [sampleLayer]
        norm_num [exportRecords, exportRecord, jsRound])
    simpa using h.1
  · exact (prepareExport_subset_order [sampleLayer,
      { sampleLayer with id := "b" }, { sampleLayer with id := "c" }]
      {"b"}).1

/-- C7 fails as stated: `Math.round` rounds halves toward `+∞`, not away from
zero.  A layer at `x = -1.5` exports `shift_x = -1`, while
round-half-away-from-zero gives `-2`. -/
theorem prepareExport_round_neg_half :
    prepareExport [{ sampleLayer with x := -(3 / 2) }] ∅ =
      some [⟨"a.png", -1, 0, 0, 0⟩] ∧
    roundHalfAwayFromZero (-(3 / 2)) = -2 ∧
    (-1 : ℤ) ≠ -2 := by
  refine ⟨?_, ?_, by norm_num⟩
  · rw [prepareExport_eq]
    simp only [sampleLayer]
    norm_num [exportRecords, exportRecord, jsRound]
  · norm_num [roundHalfAwayFromZero]

/-- C7, amended: exported `shift_x` / `shift_y` are `Math.round` of `x` / `y`,
i.e. `⌊· + 1/2⌋`: the nearest integer with halves (ties) rounded toward `+∞`
(never truncation — the result is always within `1/2` of the true
coordinate), which coincides with round-half-away-from-zero for all
non-negative inputs but not for negative half-integers. -/
theorem prepareExport_round_half_up :
    (∀ (layers : List Layer) (checked : Finset String) rows,
      prepareExport layers checked = some rows →
      ∀ r ∈ rows, ∃ l ∈ layers, r.filename = l.name ∧
        r.shift_x = ⌊l.x + 1 / 2⌋ ∧ r.shift_y = ⌊l.y + 1 / 2⌋) ∧
    (∀ q : ℚ, |(jsRound q : ℚ) - q| ≤ 1 / 2) ∧
    (∀ q : ℚ, 0 ≤ q → jsRound q = roundHalfAwayFromZero q) := by
  refine ⟨?_, ?_, ?_⟩
  · intro layers checked rows hrows r hr
    rw [prepareExport_eq] at hrows
    by_cases hsrc : (if 0 < checked.card then
        layers.filter (fun l => l.id ∈ checked) else layers) = []
    · rw [if_pos hsrc] at hrows
      exact absurd hrows (by simp)
    · rw [if_neg hsrc] at hrows
      obtain rfl : exportRecords 0 (if 0 < checked.card then
          layers.filter (fun l => l.id ∈ checked) else layers) = rows :=
        Option.some.inj hrows
      obtain ⟨l, hl, hprops⟩ := exportRecords_mem 0 _ r hr
      refine ⟨l, ?_, hprops.1, hprops.2.1, hprops.2.2⟩
      by_cases hc : 0 < checked.card
      · rw [if_pos hc] at hl
        exact (List.mem_filter.mp hl).1
      · rw [if_neg hc] at hl
        exact hl
  · intro q
    rw [abs_le]
    constructor <;>
      simp only [jsRound] <;>
      linarith [Int.floor_le (q + 1 / 2), Int.sub_one_lt_floor (q + 1 / 2)]
  · intro q hq
    rw [roundHalfAwayFromZero, if_neg (not_lt.mpr hq)]
    rfl

/-- Witness for the amended C7 theorem: the sample layer exports with
`shift_x = ⌊0 + 1/2⌋`, and `Math.round` agrees with away-from-zero rounding
at the non-negative half-integer `3/2`. -/
theorem prepareExport_round_half_up_witness :
    (∃ l ∈ [sampleLayer], (⟨"a.png", 0, 0, 0, 0⟩ : ExportData).filename =
        l.name ∧ (⟨"a.png", 0, 0, 0, 0⟩ : ExportData).shift_x =
          ⌊l.x + 1 / 2⌋ ∧ (⟨"a.png", 0, 0, 0, 0⟩ : ExportData).shift_y =
          ⌊l.y + 1 / 2⌋) ∧
    jsRound (3 / 2 : ℚ) = roundHalfAwayFromZero (3 / 2) := by
  constructor
  · refine prepareExport_round_half_up.1 [sampleLayer] ∅
      [⟨"a.png", 0, 0, 0, 0⟩] ?_ _ (by simp)
    rw [prepareExport_eq]
    simp only [sampleLayer]
    norm_num [exportRecords, exportRecord, jsRound]
  · exact prepareExport_round_half_up.2.2 (3 / 2) (by norm_num)

/-- C8 fails as stated: the marquee loop of `handleMouseMove` performs no
visibility test, so an invisible layer whose transformed bounding box
intersects the marquee IS added to the selection. -/
theorem marquee_selects_invisible :
    ({ sampleLayer with visible := false } : Layer).visible = false ∧
    "a" ∈ marqueeSelect (fun _ => 0) (fun _ => 0) false ∅
        [{ sampleLayer with visible := false }] 1 0 0 0 0 5 5 := by
  refine ⟨rfl, ?_⟩
  simp only [marqueeSelect, List.foldl_cons, List.foldl_nil, sampleLayer]
  norm_num [calculateRotatedDimensions, normalizeRotation_zero]

/-- C8, amended: marquee/box selection ignores the `visible` flag entirely —
the computed selection is unchanged under arbitrary reassignment of every
layer's visibility (invisible layers are hit-tested exactly like visible
ones). -/
theorem marqueeSelect_ignores_visible
    (sinA cosA : ℚ → ℚ) (shiftKey : Bool) (sel : Finset String)
    (layers : List Layer) (f : Layer → Bool)
    (zoom panX panY startX startY currentX currentY : ℚ) :
    marqueeSelect sinA cosA shiftKey sel
        (layers.map (fun l => { l with visible := f l }))
        zoom panX panY startX startY currentX currentY =
      marqueeSelect sinA cosA shiftKey sel layers
        zoom panX panY startX startY currentX currentY := by
  simp only [marqueeSelect]
  generalize (if shiftKey then sel else ∅) = acc
  induction layers generalizing acc with
  | nil => rfl
  | cons l ls ih =>
      simp only [List.map_cons, List.foldl_cons]
      exact ih _

lemma map_id_of_pointwise (layers : List Layer) (f : Layer → Layer)
    (hf : ∀ l, (f l).id = l.id) :
    (layers.map f).map Layer.id = layers.map Layer.id := by
  induction layers with
  | nil => rfl
  | cons l ls ih => simp [hf, ih]

lemma mem_reorder_iff {α : Type} (l : List α) (f t : ℕ) (hf : f < l.length)
    (a : α) :
    (a ∈ (l.eraseIdx f).insertIdx (min t (l.eraseIdx f).length)
        (l.get ⟨f, hf⟩)) ↔ a ∈ l := by
  have hperm := List.perm_insertIdx (l.get ⟨f, hf⟩) (l.eraseIdx f)
    (min_le_right t (l.eraseIdx f).length)
  rw [hperm.mem_iff, List.mem_cons, List.eraseIdx_eq_take_drop_succ]
  have hl : l = l.take f ++ l.get ⟨f, hf⟩ :: l.drop (f + 1) := by
    conv_lhs => rw [← List.take_append_drop f l]
    congr 1
    exact (List.get_drop_eq_drop l f hf).symm
  constructor
  · rintro (rfl | h)
    · exact List.get_mem l f hf
    · rcases List.mem_append.mp h with h1 | h2
      · exact List.mem_of_mem_take h1
      · exact List.mem_of_mem_drop h2
  · intro h
    rw [hl] at h
    rcases List.mem_append.mp h with h1 | h2
    · exact Or.inr (List.mem_append_left _ h1)
    · rcases List.mem_cons.mp h2 with rfl | h3
      · exact Or.inl rfl
      · exact Or.inr (List.mem_append_right _ h3)

/-- C9 fails as stated: `undo` restores an earlier layer sequence without
pruning the selection (or checked) set.  Uploading a layer into an empty
store, selecting it and undoing leaves the id selected while the sequence is
empty again — a dangling reference. -/
theorem undo_leaves_dangling_selection :
    idInvariant (toggleLayerSelection
      (addLayers ⟨[], ∅, ∅, [], []⟩ [sampleLayer]) "a" false) ∧
    ¬ idInvariant (undo (toggleLayerSelection
      (addLayers ⟨[], ∅, ∅, [], []⟩ [sampleLayer]) "a" false)) := by
  constructor
  · constructor
    · intro id hid
      simp [toggleLayerSelection, addLayers, addToHistory, sampleLayer] at hid ⊢
      simpa using hid
    · intro id hid
      simp [toggleLayerSelection, addLayers, addToHistory, sampleLayer] at hid
  · intro hinv
    have h := hinv.1 "a" (by
      simp [undo, toggleLayerSelection, addLayers, addToHistory, sampleLayer])
    simp [undo, toggleLayerSelection, addLayers, addToHistory,
      sampleLayer] at h

/-- C9, amended: every mutation entry point of the store EXCEPT `undo` and
`redo` preserves the no-dangling-id invariant (toggles taken at an id of a
present layer, as at every call site); `deleteSelectedLayers` prunes the
deleted ids from both sets.  `undo` and `redo` restore another sequence
without pruning either set, and can therefore leave dangling ids (see the
counterexample). -/
theorem store_ops_preserve_id_invariant :
    (∀ st newLayers, idInvariant st →
      idInvariant (addLayers st newLayers)) ∧
    (∀ st id changes rec, idInvariant st →
      idInvariant (updateLayer st id changes rec)) ∧
    (∀ (sinA cosA : ℚ → ℚ) st changes, idInvariant st →
      idInvariant (updateSelectedLayers sinA cosA st changes)) ∧
    (∀ st, idInvariant st → idInvariant (deleteSelectedLayers st)) ∧
    (∀ st f t, idInvariant st → idInvariant (reorderLayers st f t)) ∧
    (∀ st id, idInvariant st → id ∈ st.layers.map Layer.id →
      idInvariant (toggleLayerCheck st id)) ∧
    (∀ st, idInvariant st → idInvariant (toggleAllChecks st)) ∧
    (∀ st id multi, idInvariant st → id ∈ st.layers.map Layer.id →
      idInvariant (toggleLayerSelection st id multi)) := by
  refine ⟨?_, ?_, ?_, ?_, ?_, ?_, ?_, ?_⟩
  · -- addLayers
    rintro st newLayers ⟨hsel, hchk⟩
    constructor
    · intro id hid
      simp only [addLayers, addToHistory] at hid ⊢
      match hnew : newLayers with
      | [] =>
          have hid2 : id ∈ st.selectedLayerIds := hid
          simp only [List.append_nil]
          exact hsel id hid2
      | l :: rest =>
          have hid2 : id ∈ (if st.selectedLayerIds = ∅ then
              ({l.id} : Finset String) else st.selectedLayerIds) := hid
          clear hid
          rename' hid2 => hid
          by_cases hempty : st.selectedLayerIds = ∅
          · rw [if_pos hempty] at hid
            simp only [Finset.mem_singleton] at hid
            subst hid
            simp
          · rw [if_neg hempty] at hid
            simp only [List.map_append, List.mem_append]
            exact Or.inl (hsel id hid)
    · intro id hid
      simp only [addLayers, addToHistory] at hid ⊢
      simp only [List.map_append, List.mem_append]
      exact Or.inl (hchk id hid)
  · -- updateLayer
    rintro st id changes rec ⟨hsel, hchk⟩
    have hmap : ((if rec then addToHistory st else st).layers.map fun l =>
        if l.id = id then mergeChanges l changes else l).map Layer.id =
        st.layers.map Layer.id := by
      rw [show (if rec then addToHistory st else st).layers = st.layers by
        cases rec <;> rfl]
      apply map_id_of_pointwise
      intro l
      by_cases h : l.id = id <;> simp [h, mergeChanges]
    constructor
    · intro i hi
      simp only [updateLayer] at hi ⊢
      rw [hmap]
      exact hsel i (by
        cases rec <;> simpa [addToHistory] using hi)
    · intro i hi
      simp only [updateLayer] at hi ⊢
      rw [hmap]
      exact hchk i (by
        cases rec <;> simpa [addToHistory] using hi)
  · -- updateSelectedLayers
    rintro sinA cosA st changes ⟨hsel, hchk⟩
    have hmap : ((addToHistory st).layers.map fun l =>
        if l.id ∈ st.selectedLayerIds then
          applySelectedChanges sinA cosA changes l else l).map Layer.id =
        st.layers.map Layer.id := by
      apply map_id_of_pointwise
      intro l
      by_cases h : l.id ∈ st.selectedLayerIds
      · rcases hr : changes.rotation with _ | r <;>
          rcases hsc : changes.scale with _ | sc <;>
            simp [h, hr, hsc, applySelectedChanges, mergeChanges]
      · simp [h]
    constructor
    · intro i hi
      simp only [updateSelectedLayers] at hi ⊢
      rw [hmap]
      exact hsel i hi
    · intro i hi
      simp only [updateSelectedLayers] at hi ⊢
      rw [hmap]
      exact hchk i hi
  · -- deleteSelectedLayers
    rintro st ⟨hsel, hchk⟩
    by_cases h : st.selectedLayerIds = ∅
    · rw [deleteSelectedLayers, if_pos h]
      exact ⟨hsel, hchk⟩
    · rw [deleteSelectedLayers, if_neg h]
      constructor
      · intro i hi
        simp at hi
      · intro i hi
        rw [Finset.mem_sdiff] at hi
        obtain ⟨hic, hins⟩ := hi
        have := hchk i hic
        rw [List.mem_map] at this
        obtain ⟨l, hl, rfl⟩ := this
        simp only [addToHistory, List.mem_map]
        refine ⟨l, ?_, rfl⟩
        rw [List.mem_filter]
        exact ⟨hl, by simpa using hins⟩
  · -- reorderLayers
    rintro st f t ⟨hsel, hchk⟩
    rw [reorderLayers]
    match hget : st.layers[f]? with
    | none => exact ⟨hsel, hchk⟩
    | some removed =>
        have hf : f < st.layers.length := by
          by_contra hc
          rw [List.getElem?_eq_none (by omega)] at hget
          exact Option.noConfusion hget
        have hrem : removed = st.layers.get ⟨f, hf⟩ := by
          have := List.getElem?_eq_getElem hf
          rw [hget] at this
          exact Option.some.inj this
        constructor
        · intro i hi
          have := hsel i hi
          rw [List.mem_map] at this ⊢
          obtain ⟨l, hl, rfl⟩ := this
          exact ⟨l, by
            rw [hrem, mem_reorder_iff st.layers f t hf l]
            exact hl, rfl⟩
        · intro i hi
          have := hchk i hi
          rw [List.mem_map] at this ⊢
          obtain ⟨l, hl, rfl⟩ := this
          exact ⟨l, by
            rw [hrem, mem_reorder_iff st.layers f t hf l]
            exact hl, rfl⟩
  · -- toggleLayerCheck
    rintro st id ⟨hsel, hchk⟩ hpresent
    constructor
    · exact hsel
    · intro i hi
      simp only [toggleLayerCheck] at hi
      by_cases h : id ∈ st.checkedLayers
      · rw [if_pos h] at hi
        exact hchk i (Finset.mem_of_mem_erase hi)
      · rw [if_neg h] at hi
        rcases Finset.mem_insert.mp hi with rfl | hmem
        · exact hpresent
        · exact hchk i hmem
  · -- toggleAllChecks
    rintro st ⟨hsel, hchk⟩
    constructor
    · exact hsel
    · intro i hi
      simp only [toggleAllChecks] at hi
      split_ifs at hi with h
      · simp at hi
      · simpa using List.mem_toFinset.mp hi
  · -- toggleLayerSelection
    rintro st id multi ⟨hsel, hchk⟩ hpresent
    have hlayers : (toggleLayerSelection st id multi).layers = st.layers := by
      rw [toggleLayerSelection]
      split_ifs <;> rfl
    constructor
    · intro i hi
      rw [hlayers]
      simp only [toggleLayerSelection] at hi
      by_cases hm : multi
      · rw [if_pos hm] at hi
        by_cases h : id ∈ st.selectedLayerIds
        · rw [if_pos h] at hi
          exact hsel i (Finset.mem_of_mem_erase hi)
        · rw [if_neg h] at hi
          rcases Finset.mem_insert.mp hi with rfl | hmem
          · exact hpresent
          · exact hsel i hmem
      · rw [if_neg hm] at hi
        rw [Finset.mem_singleton] at hi
        subst hi
        exact hpresent
    · intro i hi
      rw [hlayers]
      simp only [toggleLayerSelection] at hi
      by_cases hm : multi
      · rw [if_pos hm] at hi
        exact hchk i hi
      · rw [if_neg hm] at hi
        exact hchk i hi

/-- Witness for the amended C9 theorem: deletion and check-toggling on the
sample state keep the invariant. -/
theorem store_ops_preserve_id_invariant_witness :
    idInvariant (deleteSelectedLayers sampleState) ∧
    idInvariant (toggleLayerCheck sampleState "a") := by
  have hinv : idInvariant sampleState := by
    constructor
    · intro id hid
      simp [sampleState, sampleLayer] at hid ⊢
      simp [hid]
    · intro id hid
      simp [sampleState] at hid
  exact ⟨store_ops_preserve_id_invariant.2.2.2.1 sampleState hinv,
    store_ops_preserve_id_invariant.2.2.2.2.2.1 sampleState "a" hinv
      (by simp [sampleState, sampleLayer])⟩

/-- C10: `deleteSelectedLayers` removes exactly the layers whose ids are
selected: the surviving sequence is a sublist of the original (relative order
kept) and a layer record (with all its fields) survives iff it was present
and its id was not selected. -/
theorem deleteSelectedLayers_removes_exactly_selected (st : AppState) :
    (deleteSelectedLayers st).layers.Sublist st.layers ∧
    (∀ l : Layer, l ∈ (deleteSelectedLayers st).layers ↔
      (l ∈ st.layers ∧ l.id ∉ st.selectedLayerIds)) := by
  rw [deleteSelectedLayers]
  by_cases h : st.selectedLayerIds = ∅
  · rw [if_pos h]
    exact ⟨List.Sublist.refl _, fun l => by simp [h]⟩
  · rw [if_neg h]
    constructor
    · exact List.filter_sublist st.layers
    · intro l
      simp [addToHistory, List.mem_filter]
